import Mathlib

/-!
Verification of the voice-interaction core (Tauri assistant, `src-tauri/src/voice`).

Shallow embedding conventions:
* `f32` audio samples are modelled as `ℚ` (exact arithmetic idealization of the
  float computations; no claim below depends on rounding).
* The wall-clock field `last_transition : Instant` of `VoiceStateMachine` and all
  logging/event-emission side effects that carry no data are omitted; data-bearing
  emissions are modelled by the `Emit` type.
* The square root inside `calculate_rms` has no rational embedding; the radicand
  is embedded exactly (`calculate_rms_sq`) and an rms value is characterized by
  the predicate `IsRms` (nonnegative root of the radicand).
-/

/-- Voice system states, from `state_machine.rs` lines 7-20. -/
inductive VoiceState where
  | Idle
  | Listening
  | Transcribing
  | Processing
  | Speaking
deriving DecidableEq, Repr

/-- Events that trigger state transitions, from `state_machine.rs` lines 41-63. -/
inductive VoiceEvent where
  | wakeWordDetected
  | manualTrigger
  | vadSpeechEnd
  | transcriptionComplete (text : String)
  | responseReady (response : String)
  | speechComplete
  | bargeIn
  | timeout
  | error (msg : String)
  | cancel
deriving DecidableEq, Repr

/-- Actions to perform after a state transition, from `state_machine.rs` lines 73-89. -/
inductive StateAction where
  | startCapture
  | stopCapture
  | sendToStt (audio : List ℚ)
  | processText (text : String)
  | playTts (response : String)
  | stopTts
  | emitError (msg : String)
deriving DecidableEq, Repr

/-- Result of a state transition, from `state_machine.rs` lines 66-70. -/
structure TransitionResult where
  new_state : VoiceState
  action : Option StateAction
deriving DecidableEq, Repr

/-- Voice state machine, from `state_machine.rs` lines 92-97.  The
`last_transition : Instant` timestamp is omitted (wall-clock time, referenced by
no claim). -/
structure VoiceStateMachine where
  state : VoiceState
  captured_audio : List ℚ
deriving DecidableEq, Repr

namespace VoiceStateMachine

/-- Constructor `VoiceStateMachine::new`, `state_machine.rs` lines 106-112. -/
def new : VoiceStateMachine := { state := VoiceState.Idle, captured_audio := [] }

/-- Method `add_audio`, `state_machine.rs` lines 125-129: append samples to the
captured-audio buffer iff in `Listening`. -/
def add_audio (m : VoiceStateMachine) (samples : List ℚ) : VoiceStateMachine :=
  if m.state = VoiceState.Listening then
    { m with captured_audio := m.captured_audio ++ samples }
  else m

/-- Method `transition`, `state_machine.rs` lines 132-203.  Returns the updated
machine together with the `TransitionResult`.  The match arms are in source
order (the specific `(Transcribing, Error)` / `(Processing, Error)` arms come
before the catch-all error arm, which in turn precedes the no-op arm). -/
def transition (m : VoiceStateMachine) (e : VoiceEvent) :
    VoiceStateMachine × TransitionResult :=
  let r : VoiceState × List ℚ × Option StateAction :=
    match m.state, e with
    | VoiceState.Idle, VoiceEvent.wakeWordDetected =>
        (VoiceState.Listening, [], some StateAction.startCapture)
    | VoiceState.Idle, VoiceEvent.manualTrigger =>
        (VoiceState.Listening, [], some StateAction.startCapture)
    | VoiceState.Listening, VoiceEvent.vadSpeechEnd =>
        (VoiceState.Transcribing, [], some (StateAction.sendToStt m.captured_audio))
    | VoiceState.Listening, VoiceEvent.timeout =>
        (VoiceState.Idle, [], some StateAction.stopCapture)
    | VoiceState.Listening, VoiceEvent.cancel =>
        (VoiceState.Idle, [], some StateAction.stopCapture)
    | VoiceState.Transcribing, VoiceEvent.transcriptionComplete t =>
        (VoiceState.Processing, m.captured_audio, some (StateAction.processText t))
    | VoiceState.Transcribing, VoiceEvent.error msg =>
        (VoiceState.Idle, m.captured_audio, some (StateAction.emitError msg))
    | VoiceState.Processing, VoiceEvent.responseReady resp =>
        (VoiceState.Speaking, m.captured_audio, some (StateAction.playTts resp))
    | VoiceState.Processing, VoiceEvent.error msg =>
        (VoiceState.Idle, m.captured_audio, some (StateAction.emitError msg))
    | VoiceState.Speaking, VoiceEvent.speechComplete =>
        (VoiceState.Idle, m.captured_audio, none)
    | VoiceState.Speaking, VoiceEvent.bargeIn =>
        (VoiceState.Listening, [], some StateAction.stopTts)
    | VoiceState.Speaking, VoiceEvent.cancel =>
        (VoiceState.Idle, m.captured_audio, some StateAction.stopTts)
    | _, VoiceEvent.error msg =>
        (VoiceState.Idle, [], some (StateAction.emitError msg))
    | current, _ => (current, m.captured_audio, none)
  ({ state := r.1, captured_audio := r.2.1 }, { new_state := r.1, action := r.2.2 })

/-- Method `reset`, `state_machine.rs` lines 206-210. -/
def reset (_ : VoiceStateMachine) : VoiceStateMachine :=
  { state := VoiceState.Idle, captured_audio := [] }

end VoiceStateMachine

/-- One interaction with the state machine: an event fed to `transition`, or a
chunk fed to `add_audio` (the sole append path, `state_machine.rs` line 125). -/
inductive FsmStep where
  | ev (e : VoiceEvent)
  | addAudio (chunk : List ℚ)
deriving DecidableEq, Repr

/-- Apply one step to the machine, discarding the transition result. -/
def applyStep (m : VoiceStateMachine) : FsmStep → VoiceStateMachine
  | FsmStep.ev e => (m.transition e).1
  | FsmStep.addAudio c => m.add_audio c

/-- Apply a sequence of steps left to right. -/
def runSteps (m : VoiceStateMachine) (steps : List FsmStep) : VoiceStateMachine :=
  steps.foldl applyStep m

/-- Invariant: outside `Listening` the captured-audio buffer is empty (spec §4.6
"Captured-audio is empty on entry to Idle, Transcribing, Processing, Speaking"). -/
def CapturedInv (m : VoiceStateMachine) : Prop :=
  m.state ≠ VoiceState.Listening → m.captured_audio = []

theorem capturedInv_new : CapturedInv VoiceStateMachine.new := by
  intro _; rfl

theorem capturedInv_transition (m : VoiceStateMachine) (e : VoiceEvent)
    (h : CapturedInv m) : CapturedInv (m.transition e).1 := by
  cases e <;> cases hs : m.state <;>
    simp_all [VoiceStateMachine.transition, CapturedInv]

theorem capturedInv_applyStep (m : VoiceStateMachine) (s : FsmStep)
    (h : CapturedInv m) : CapturedInv (applyStep m s) := by
  cases s with
  | ev e => exact capturedInv_transition m e h
  | addAudio c =>
      simp only [applyStep, VoiceStateMachine.add_audio]
      split
      · intro hne; simp_all [CapturedInv]
      · exact h

theorem capturedInv_runSteps (m : VoiceStateMachine) (steps : List FsmStep)
    (h : CapturedInv m) : CapturedInv (runSteps m steps) := by
  induction steps generalizing m with
  | nil => exact h
  | cons s rest ih => exact ih (applyStep m s) (capturedInv_applyStep m s h)

/-- Helper: the machine reached after an `Error(_)` event is `Idle` with an
empty captured-audio buffer, provided the pre-state satisfies `CapturedInv`. -/
theorem error_transition_clears (m : VoiceStateMachine) (msg : String)
    (h : CapturedInv m) :
    (m.transition (VoiceEvent.error msg)).1.state = VoiceState.Idle ∧
    (m.transition (VoiceEvent.error msg)).1.captured_audio = [] := by
  cases hs : m.state <;>
    simp_all [VoiceStateMachine.transition, CapturedInv]

/-- C1.  For every sequence of steps (events and `add_audio` calls) applied to a
freshly created state machine whose last step is the event `Error(_)`, the
resulting state is `Idle` and the captured-audio buffer is empty. -/
theorem error_event_resets_to_idle (steps : List FsmStep) (msg : String) :
    (runSteps VoiceStateMachine.new (steps ++ [FsmStep.ev (VoiceEvent.error msg)])).state
      = VoiceState.Idle ∧
    (runSteps VoiceStateMachine.new (steps ++ [FsmStep.ev (VoiceEvent.error msg)])).captured_audio
      = [] := by
  have hinv : CapturedInv (runSteps VoiceStateMachine.new steps) :=
    capturedInv_runSteps _ _ capturedInv_new
  have hsplit :
      runSteps VoiceStateMachine.new (steps ++ [FsmStep.ev (VoiceEvent.error msg)])
        = ((runSteps VoiceStateMachine.new steps).transition (VoiceEvent.error msg)).1 := by
    simp [runSteps, List.foldl_append, applyStep]
  rw [hsplit]
  exact error_transition_clears _ msg hinv

/-- Witness for C1 at a concrete run: wake word, some audio, speech end, then an
error mid-transcription. -/
theorem error_event_resets_to_idle_witness :
    (runSteps VoiceStateMachine.new
        ([FsmStep.ev VoiceEvent.wakeWordDetected, FsmStep.addAudio [1, 2],
          FsmStep.ev VoiceEvent.vadSpeechEnd] ++
         [FsmStep.ev (VoiceEvent.error "stt down")])).state = VoiceState.Idle ∧
    (runSteps VoiceStateMachine.new
        ([FsmStep.ev VoiceEvent.wakeWordDetected, FsmStep.addAudio [1, 2],
          FsmStep.ev VoiceEvent.vadSpeechEnd] ++
         [FsmStep.ev (VoiceEvent.error "stt down")])).captured_audio = [] :=
  error_event_resets_to_idle
    [FsmStep.ev VoiceEvent.wakeWordDetected, FsmStep.addAudio [1, 2],
     FsmStep.ev VoiceEvent.vadSpeechEnd] "stt down"

/-- Data-bearing frontend emissions of the processing loop
(`audio_processing.rs` lines 194-200). -/
inductive Emit where
  | stateChanged (s : VoiceState)
  | audioCaptured (audio : List ℚ)
deriving DecidableEq, Repr

/-- Emissions performed by `process_listening_state` after a `VadSpeechEnd`
transition (`audio_processing.rs` lines 194-200): a `voice-state-changed` event
with the new state, and — when the action is `SendToStt` — a
`voice-audio-captured` event carrying the moved buffer. -/
def emits_of_transition (tr : TransitionResult) : List Emit :=
  Emit.stateChanged tr.new_state ::
    (match tr.action with
     | some (StateAction.sendToStt audio) => [Emit.audioCaptured audio]
     | _ => [])

/-- Helper: folding `add_audio` over chunks while in `Listening` keeps the state
and appends the concatenation of the chunks to the buffer. -/
theorem add_audio_foldl (chunks : List (List ℚ)) (m : VoiceStateMachine)
    (h : m.state = VoiceState.Listening) :
    (chunks.foldl VoiceStateMachine.add_audio m).state = VoiceState.Listening ∧
    (chunks.foldl VoiceStateMachine.add_audio m).captured_audio
      = m.captured_audio ++ chunks.flatten := by
  induction chunks generalizing m with
  | nil => simp [h]
  | cons c rest ih =>
      have hm : m.add_audio c
          = { m with captured_audio := m.captured_audio ++ c } := by
        simp [VoiceStateMachine.add_audio, h]
      have := ih (m.add_audio c) (by simp [hm, h])
      simpa [hm, List.append_assoc] using this

/-- C2.  For every finite sequence of chunks appended with `add_audio` during a
single `Listening` episode (entered with an empty buffer) that ends with the
`VadSpeechEnd` event, the `SendToStt` action carries exactly the concatenation
of those chunks in arrival order, its length is the sum of the chunk lengths,
the machine's buffer is left empty, and `process_listening_state` emits the
payload as the `voice-audio-captured` event. -/
theorem listening_episode_sends_concatenated_audio
    (m : VoiceStateMachine) (chunks : List (List ℚ))
    (hstate : m.state = VoiceState.Listening)
    (hempty : m.captured_audio = []) :
    ((chunks.foldl VoiceStateMachine.add_audio m).transition VoiceEvent.vadSpeechEnd).2.action
      = some (StateAction.sendToStt chunks.flatten) ∧
    chunks.flatten.length = (chunks.map List.length).sum ∧
    ((chunks.foldl VoiceStateMachine.add_audio m).transition VoiceEvent.vadSpeechEnd).1.captured_audio
      = [] ∧
    Emit.audioCaptured chunks.flatten
      ∈ emits_of_transition
          ((chunks.foldl VoiceStateMachine.add_audio m).transition VoiceEvent.vadSpeechEnd).2 := by
  obtain ⟨hst, hcap⟩ := add_audio_foldl chunks m hstate
  simp only [hempty, List.nil_append] at hcap
  have hm1 : chunks.foldl VoiceStateMachine.add_audio m
      = { state := VoiceState.Listening, captured_audio := chunks.flatten } := by
    rw [← hst, ← hcap]
  rw [hm1]
  refine ⟨?_, ?_, ?_, ?_⟩
  · simp [VoiceStateMachine.transition]
  · simp [List.length_flatten]
  · simp [VoiceStateMachine.transition]
  · simp [VoiceStateMachine.transition, emits_of_transition]

/-- Witness for C2 at concrete chunks `[[1], [2, 3]]`. -/
theorem listening_episode_sends_concatenated_audio_witness :
    ((([[1], [2, 3]] : List (List ℚ)).foldl VoiceStateMachine.add_audio
        { state := VoiceState.Listening, captured_audio := [] }).transition
          VoiceEvent.vadSpeechEnd).2.action
      = some (StateAction.sendToStt ([[1], [2, 3]] : List (List ℚ)).flatten) ∧
    ([[1], [2, 3]] : List (List ℚ)).flatten.length
      = (([[1], [2, 3]] : List (List ℚ)).map List.length).sum ∧
    ((([[1], [2, 3]] : List (List ℚ)).foldl VoiceStateMachine.add_audio
        { state := VoiceState.Listening, captured_audio := [] }).transition
          VoiceEvent.vadSpeechEnd).1.captured_audio = [] ∧
    Emit.audioCaptured ([[1], [2, 3]] : List (List ℚ)).flatten
      ∈ emits_of_transition
          ((([[1], [2, 3]] : List (List ℚ)).foldl VoiceStateMachine.add_audio
              { state := VoiceState.Listening, captured_audio := [] }).transition
                VoiceEvent.vadSpeechEnd).2 :=
  listening_episode_sends_concatenated_audio
    { state := VoiceState.Listening, captured_audio := [] } [[1], [2, 3]] rfl rfl

/-- Configuration for the voice system, `config.rs` lines 4-20.  Float fields are
modelled as `ℚ`. -/
structure VoiceConfig where
  sample_rate : ℕ
  chunk_size : ℕ
  mel_frame_count : ℕ
  wake_word_threshold : ℚ
  sensitivity : ℚ
  silence_threshold : ℚ
  silence_frames_threshold : ℕ
deriving DecidableEq, Repr

namespace VoiceConfig

/-- The `Default` instance, `config.rs` lines 22-34. -/
def default : VoiceConfig :=
  { sample_rate := 16000
    chunk_size := 1280
    mel_frame_count := 76
    wake_word_threshold := 1/2
    sensitivity := 1
    silence_threshold := 1/100
    silence_frames_threshold := 16 }

/-- Method `effective_threshold`, `config.rs` lines 38-40. -/
def effective_threshold (c : VoiceConfig) : ℚ :=
  c.wake_word_threshold / c.sensitivity

end VoiceConfig

/-- Rust `f32::clamp(lo, hi)`: `lo` if below, `hi` if above, the value itself
otherwise (used at `wake_word.rs` line 148 and `controller.rs` line 133). -/
def clampQ (x lo hi : ℚ) : ℚ :=
  if x < lo then lo else if hi < x then hi else x

/-- Sensitivity setter (`WakeWordDetector::set_sensitivity`, `wake_word.rs`
lines 146-150, and `VoiceController::set_sensitivity`, `controller.rs` lines
132-134): stores the sensitivity clamped to `[0.1, 3.0]`. -/
def set_sensitivity (c : VoiceConfig) (s : ℚ) : VoiceConfig :=
  { c with sensitivity := clampQ s (1/10) 3 }

/-- Radicand of `calculate_rms`, `vad.rs` lines 104-110: `0` for an empty chunk,
otherwise the mean of the squares.  The source returns its square root; a value
`r` is "the rms of `samples`" iff `IsRms samples r`. -/
def calculate_rms_sq (samples : List ℚ) : ℚ :=
  if samples.isEmpty then 0
  else (samples.map (fun s => s * s)).sum / samples.length

/-- Characterization of `calculate_rms samples = r`: the nonnegative square root
of the radicand. -/
def IsRms (samples : List ℚ) (r : ℚ) : Prop :=
  0 ≤ r ∧ r * r = calculate_rms_sq samples

/-- A chunk of all-zero samples has rms `0`. -/
theorem isRms_zero (samples : List ℚ) (h : ∀ x ∈ samples, x = 0) :
    IsRms samples 0 := by
  refine ⟨le_refl 0, ?_⟩
  simp only [calculate_rms_sq, mul_zero]
  split
  · rfl
  · have : samples.map (fun s => s * s) = samples.map (fun _ => (0 : ℚ)) := by
      apply List.map_congr_left
      intro x hx
      rw [h x hx, mul_zero]
    rw [this]
    simp

/-- Result of VAD processing, `vad.rs` lines 93-101. -/
inductive VadResult where
  | Speech
  | Silence
  | SpeechEnd
deriving DecidableEq, Repr

/-- Voice activity detector state, `vad.rs` lines 9-23. -/
structure VoiceActivityDetector where
  silence_threshold : ℚ
  silence_frames_threshold : ℕ
  silent_frame_count : ℕ
  speech_detected : Bool
  smoothed_rms : ℚ
  smoothing_factor : ℚ
deriving DecidableEq, Repr

namespace VoiceActivityDetector

/-- Constructor `VoiceActivityDetector::new`, `vad.rs` lines 27-36. -/
def new (config : VoiceConfig) : VoiceActivityDetector :=
  { silence_threshold := config.silence_threshold
    silence_frames_threshold := config.silence_frames_threshold
    silent_frame_count := 0
    speech_detected := false
    smoothed_rms := 0
    smoothing_factor := 3/10 }

/-- Method `process`, `vad.rs` lines 39-67, parametrized by the rms of the chunk
(the first line of the source computes `rms = calculate_rms(samples)`; see
`IsRms`).  Everything after that line is embedded exactly: exponential
smoothing, the silence comparison, and the three-way branch. -/
def process (v : VoiceActivityDetector) (rms : ℚ) :
    VoiceActivityDetector × VadResult :=
  let sm := v.smoothing_factor * rms + (1 - v.smoothing_factor) * v.smoothed_rms
  let is_silent := sm < v.silence_threshold
  if ¬ is_silent then
    ({ v with smoothed_rms := sm, speech_detected := true, silent_frame_count := 0 },
     VadResult.Speech)
  else if v.speech_detected then
    let c := v.silent_frame_count + 1
    ({ v with smoothed_rms := sm, silent_frame_count := c },
     if v.silence_frames_threshold ≤ c then VadResult.SpeechEnd else VadResult.Silence)
  else
    ({ v with smoothed_rms := sm }, VadResult.Silence)

/-- Method `reset`, `vad.rs` lines 70-74. -/
def reset (v : VoiceActivityDetector) : VoiceActivityDetector :=
  { v with silent_frame_count := 0, speech_detected := false, smoothed_rms := 0 }

/-- Method `has_speech`, `vad.rs` lines 82-84. -/
def has_speech (v : VoiceActivityDetector) : Bool :=
  v.speech_detected

end VoiceActivityDetector

/-- Run the VAD over a list of chunk rms values, collecting the results. -/
def vadRun (v : VoiceActivityDetector) :
    List ℚ → VoiceActivityDetector × List VadResult
  | [] => (v, [])
  | r :: rest =>
      let p := v.process r
      let q := vadRun p.1 rest
      (q.1, p.2 :: q.2)

/-- Helper: a single `process` call returns `SpeechEnd` only if the
speech-detected latch was already set before the call. -/
theorem process_speechEnd_latch (v : VoiceActivityDetector) (r : ℚ)
    (h : (v.process r).2 = VadResult.SpeechEnd) : v.speech_detected = true := by
  by_contra hfalse
  simp only [Bool.not_eq_true] at hfalse
  simp [VoiceActivityDetector.process, hfalse] at h
  split at h <;> simp_all

/-- Helper: the latch only flips to `true` on a chunk whose result is `Speech`,
so a run ending with the latch set either started with it set or contains a
`Speech` result. -/
theorem vadRun_latch_source (rs : List ℚ) (v : VoiceActivityDetector)
    (h : (vadRun v rs).1.speech_detected = true) :
    v.speech_detected = true ∨ VadResult.Speech ∈ (vadRun v rs).2 := by
  induction rs generalizing v with
  | nil => exact Or.inl h
  | cons r rest ih =>
      simp only [vadRun] at h ⊢
      rcases ih (v.process r).1 h with hv | hmem
      · by_cases hres : (v.process r).2 = VadResult.Speech
        · exact Or.inr (by simp [hres])
        · left
          revert hv hres
          simp only [VoiceActivityDetector.process]
          split
          · intro _ hres; exact absurd rfl hres
          · split <;> intro hv _ <;> simpa using hv
      · exact Or.inr (List.mem_cons_of_mem _ hmem)

/-- C7.  On a fresh VAD (any configuration), a `SpeechEnd` result can only occur
after the speech-detected latch has been set by an earlier chunk: whenever the
chunk following the prefix `pre` yields `SpeechEnd`, `has_speech` is already
`true` after `pre`, and some chunk of `pre` returned `Speech` (observed
speech). -/
theorem speech_end_requires_prior_speech (cfg : VoiceConfig) (pre : List ℚ)
    (r : ℚ)
    (h : ((vadRun (VoiceActivityDetector.new cfg) pre).1.process r).2
          = VadResult.SpeechEnd) :
    (vadRun (VoiceActivityDetector.new cfg) pre).1.has_speech = true ∧
    VadResult.Speech ∈ (vadRun (VoiceActivityDetector.new cfg) pre).2 := by
  have hl : (vadRun (VoiceActivityDetector.new cfg) pre).1.speech_detected = true :=
    process_speechEnd_latch _ r h
  refine ⟨hl, ?_⟩
  rcases vadRun_latch_source pre (VoiceActivityDetector.new cfg) hl with hv | hmem
  · simp [VoiceActivityDetector.new] at hv
  · exact hmem

/-- Witness for C7: threshold-1 silence-frame config, one loud chunk (rms
`1/30`) then a silent one (rms `0`) yields `SpeechEnd`. -/
theorem speech_end_requires_prior_speech_witness :
    (vadRun (VoiceActivityDetector.new
        { VoiceConfig.default with silence_frames_threshold := 1 }) [1/30]).1.has_speech
      = true ∧
    VadResult.Speech ∈ (vadRun (VoiceActivityDetector.new
        { VoiceConfig.default with silence_frames_threshold := 1 }) [1/30]).2 :=
  speech_end_requires_prior_speech _ [1/30] 0 (by
    norm_num [vadRun, VoiceActivityDetector.process, VoiceActivityDetector.new,
      VoiceConfig.default])

/-- Combined state handled by the audio-processing loop: the FSM (behind the
controller lock) and the thread-local VAD (`audio_processing.rs` lines 114-132). -/
structure SysState where
  fsm : VoiceStateMachine
  vad : VoiceActivityDetector
deriving DecidableEq, Repr

/-- Function `process_listening_state`, `audio_processing.rs` lines 176-208:
add the chunk to the FSM buffer, run the VAD, and on `SpeechEnd` fire the
`VadSpeechEnd` transition, emit the state change plus captured audio, and reset
the VAD.  (The companion wake-word buffer reset touches only the mel window,
which is not part of this state.)  The VAD result is returned for observation. -/
def process_listening_state (s : SysState) (chunk : List ℚ) (rms : ℚ) :
    SysState × List Emit × VadResult :=
  let fsm1 := s.fsm.add_audio chunk
  let p := s.vad.process rms
  if p.2 = VadResult.SpeechEnd then
    let t := fsm1.transition VoiceEvent.vadSpeechEnd
    ({ fsm := t.1, vad := p.1.reset }, emits_of_transition t.2, p.2)
  else
    ({ fsm := fsm1, vad := p.1 }, [], p.2)

/-- Dispatch of `process_audio_state`, `audio_processing.rs` lines 114-132,
restricted to the arms relevant here: in `Listening` the chunk goes to
`process_listening_state`; in `Transcribing`/`Processing`/`Speaking` it is
dropped.  The `Idle` arm runs the ONNX wake-word cascade (external inference,
not embeddable); the runs in the theorems below never visit `Idle`, so that arm
is modelled as the same no-op the source applies to the remaining states. -/
def process_audio_state (s : SysState) (chunk : List ℚ) (rms : ℚ) :
    SysState × List Emit × Option VadResult :=
  if s.fsm.state = VoiceState.Listening then
    let r := process_listening_state s chunk rms
    (r.1, r.2.1, some r.2.2)
  else
    (s, [], none)

/-- Drive the processing loop over a list of (chunk, rms) pairs, collecting the
VAD result observed at each chunk (`none` when the state dropped the chunk). -/
def runChunks (s : SysState) : List (List ℚ × ℚ) → SysState × List (Option VadResult)
  | [] => (s, [])
  | (c, r) :: rest =>
      let p := process_audio_state s c r
      let q := runChunks p.1 rest
      (q.1, p.2.2 :: q.2)

/-- Distributing `runChunks` over an append. -/
theorem runChunks_append (s : SysState) (a b : List (List ℚ × ℚ)) :
    runChunks s (a ++ b)
      = ((runChunks (runChunks s a).1 b).1,
         (runChunks s a).2 ++ (runChunks (runChunks s a).1 b).2) := by
  induction a generalizing s with
  | nil => simp [runChunks]
  | cons p rest ih =>
      obtain ⟨c, r⟩ := p
      simp [runChunks, ih]

/-- A VAD mid-utterance: default thresholds, speech latched, `k` silent frames
counted, smoothed rms `s`.  Equals
`{ VoiceActivityDetector.new VoiceConfig.default with speech_detected := true,
smoothed_rms := s, silent_frame_count := k }`. -/
def vadAt (s : ℚ) (k : ℕ) : VoiceActivityDetector :=
  { silence_threshold := 1/100
    silence_frames_threshold := 16
    silent_frame_count := k
    speech_detected := true
    smoothed_rms := s
    smoothing_factor := 3/10 }

/-- Helper: one all-silent chunk while fewer than 15 silent frames are counted
yields `Silence` and bumps the counter. -/
theorem listening_step_silent (fsm : VoiceStateMachine) (s : ℚ) (k : ℕ)
    (c : List ℚ) (hst : fsm.state = VoiceState.Listening)
    (hdec : 7/10 * s < 1/100) (hk : k + 1 < 16) :
    process_audio_state { fsm := fsm, vad := vadAt s k } c 0
      = ({ fsm := fsm.add_audio c, vad := vadAt (7/10 * s) (k + 1) },
         [], some VadResult.Silence) := by
  have hsm : (3 : ℚ)/10 * 0 + (1 - 3/10) * s = 7/10 * s := by ring
  have hns : ¬ ((16 : ℕ) ≤ k + 1) := by omega
  simp only [process_audio_state, hst, if_pos, process_listening_state,
    VoiceActivityDetector.process, vadAt, hsm]
  rw [if_neg (not_not_intro hdec)]
  simp [hns, VoiceActivityDetector.reset]

/-- Helper: the sixteenth consecutive silent chunk yields `SpeechEnd`, moves the
FSM to `Transcribing` with the captured audio emitted, and resets the VAD. -/
theorem listening_step_end (fsm : VoiceStateMachine) (s : ℚ) (c : List ℚ)
    (hst : fsm.state = VoiceState.Listening) (hdec : 7/10 * s < 1/100) :
    process_audio_state { fsm := fsm, vad := vadAt s 15 } c 0
      = ({ fsm := { state := VoiceState.Transcribing, captured_audio := [] },
           vad := VoiceActivityDetector.new VoiceConfig.default },
         [Emit.stateChanged VoiceState.Transcribing,
          Emit.audioCaptured (fsm.captured_audio ++ c)],
         some VadResult.SpeechEnd) := by
  have hsm : (3 : ℚ)/10 * 0 + (1 - 3/10) * s = 7/10 * s := by ring
  have hadd : fsm.add_audio c
      = { state := fsm.state, captured_audio := fsm.captured_audio ++ c } := by
    simp [VoiceStateMachine.add_audio, hst]
  simp only [process_audio_state, hst, if_pos, process_listening_state,
    VoiceActivityDetector.process, vadAt, hsm]
  rw [if_neg (not_not_intro hdec)]
  simp [hadd, hst, VoiceStateMachine.transition, emits_of_transition,
    VoiceActivityDetector.reset, VoiceActivityDetector.new, VoiceConfig.default]

/-- Helper: a run of `j` all-silent chunks starting with `k` counted frames,
`k + j < 16`, stays in `Listening` and yields only `Silence` results. -/
theorem silent_listening_run (inputs : List (List ℚ × ℚ)) (k : ℕ) (s : ℚ)
    (fsm : VoiceStateMachine) (hst : fsm.state = VoiceState.Listening)
    (hz : ∀ p ∈ inputs, p.2 = 0) (hs : 0 ≤ s) (hdec : 7/10 * s < 1/100)
    (hk : k + inputs.length < 16) :
    ∃ fsm1 s1,
      runChunks { fsm := fsm, vad := vadAt s k } inputs
        = ({ fsm := fsm1, vad := vadAt s1 (k + inputs.length) },
           List.replicate inputs.length (some VadResult.Silence)) ∧
      fsm1.state = VoiceState.Listening ∧ 0 ≤ s1 ∧ 7/10 * s1 < 1/100 := by
  induction inputs generalizing k s fsm with
  | nil =>
      exact ⟨fsm, s, by simp [runChunks], hst, hs, hdec⟩
  | cons p rest ih =>
      obtain ⟨c, r⟩ := p
      have hr : r = 0 := hz (c, r) (by simp)
      subst hr
      have hk1 : k + 1 < 16 := by
        simp only [List.length_cons] at hk; omega
      have hstep := listening_step_silent fsm s k c hst hdec hk1
      have hst1 : (fsm.add_audio c).state = VoiceState.Listening := by
        simp [VoiceStateMachine.add_audio, hst]
      have hs1 : (0 : ℚ) ≤ 7/10 * s := by linarith
      have hdec1 : 7/10 * (7/10 * s) < 1/100 := by nlinarith
      obtain ⟨fsm1, s1, hrun, hfst, hfs, hfdec⟩ :=
        ih (k + 1) (7/10 * s) (fsm.add_audio c) hst1
          (fun q hq => hz q (List.mem_cons_of_mem _ hq)) hs1 hdec1
          (by simp only [List.length_cons] at hk; omega)
      refine ⟨fsm1, s1, ?_, hfst, hfs, hfdec⟩
      simp only [runChunks, hstep, hrun, List.length_cons, List.replicate_succ]
      rw [show k + (rest.length + 1) = k + 1 + rest.length by omega]

/-- Helper: the rms of an all-zero chunk can only be `0`. -/
theorem rms_of_zero_chunk (c : List ℚ) (r : ℚ) (hz : ∀ x ∈ c, x = 0)
    (hr : IsRms c r) : r = 0 := by
  obtain ⟨hnn, hsq⟩ := hr
  obtain ⟨-, hzero⟩ := isRms_zero c hz
  have : r * r = 0 := by rw [hsq, ← hzero]; ring
  exact mul_self_eq_zero.mp this

/-- C6.  With the system in `Listening` after prior speech (VAD latch set,
silent-frame count `0`, default thresholds, smoothed rms low enough that the
decayed level stays below the silence threshold), processing 16 consecutive
all-zero chunks (`silence_frames_threshold = 16`) produces exactly one
`SpeechEnd` result — the 16th chunk fires it, the FSM leaves `Listening`, and
later chunks are dropped, so no second `SpeechEnd` can occur. -/
theorem single_speech_end_in_listening
    (fsm : VoiceStateMachine) (s0 : ℚ) (inputs : List (List ℚ × ℚ))
    (hst : fsm.state = VoiceState.Listening)
    (hlen : inputs.length = 16)
    (hz : ∀ p ∈ inputs, ∀ x ∈ p.1, x = 0)
    (hr : ∀ p ∈ inputs, IsRms p.1 p.2)
    (hs0 : 0 ≤ s0) (hdec : 7/10 * s0 < 1/100) :
    ((runChunks
        { fsm := fsm,
          vad := { VoiceActivityDetector.new VoiceConfig.default with
                     speech_detected := true, smoothed_rms := s0 } } inputs).2).count
      (some VadResult.SpeechEnd) = 1 := by
  have hz2 : ∀ p ∈ inputs, p.2 = 0 := fun p hp =>
    rms_of_zero_chunk p.1 p.2 (hz p hp) (hr p hp)
  have hv : ({ VoiceActivityDetector.new VoiceConfig.default with
      speech_detected := true, smoothed_rms := s0 } : VoiceActivityDetector)
        = vadAt s0 0 := rfl
  rw [hv]
  have hsplit : inputs = inputs.take 15 ++ inputs.drop 15 :=
    (List.take_append_drop 15 inputs).symm
  have hlen15 : (inputs.take 15).length = 15 := by
    rw [List.length_take]; omega
  have hlen1 : (inputs.drop 15).length = 1 := by
    rw [List.length_drop]; omega
  obtain ⟨q, hq⟩ := List.length_eq_one.mp hlen1
  obtain ⟨fsm1, s1, hrun, hfst, hfs, hfdec⟩ :=
    silent_listening_run (inputs.take 15) 0 s0 fsm hst
      (fun p hp => hz2 p (List.mem_of_mem_take hp)) hs0 hdec
      (by rw [hlen15]; omega)
  have hqmem : q ∈ inputs := by
    rw [hsplit]
    exact List.mem_append_right _ (by simp [hq])
  obtain ⟨c, r⟩ := q
  have hr0 : r = 0 := hz2 (c, r) hqmem
  subst hr0
  have hend := listening_step_end fsm1 s1 c hfst hfdec
  conv_lhs => rw [hsplit, hq]
  rw [runChunks_append, hrun]
  simp only [Nat.zero_add, hlen15]
  simp only [runChunks, hend]
  simp [List.count_append, List.count_replicate, hlen15]

/-- Witness for C6: an empty-buffer `Listening` machine, smoothed rms `0`, and
16 copies of the all-zero chunk `[0]`. -/
theorem single_speech_end_in_listening_witness :
    ((runChunks
        { fsm := { state := VoiceState.Listening, captured_audio := [] },
          vad := { VoiceActivityDetector.new VoiceConfig.default with
                     speech_detected := true, smoothed_rms := 0 } }
        (List.replicate 16 ([0], 0))).2).count (some VadResult.SpeechEnd) = 1 :=
  single_speech_end_in_listening
    { state := VoiceState.Listening, captured_audio := [] } 0
    (List.replicate 16 ([0], 0)) rfl (by simp)
    (by
      intro p hp x hx
      have hp2 := List.eq_of_mem_replicate hp
      subst hp2
      simpa using hx)
    (by
      intro p hp
      have hp2 := List.eq_of_mem_replicate hp
      subst hp2
      exact ⟨le_refl 0, by norm_num [calculate_rms_sq]⟩)
    (le_refl 0) (by norm_num)

/-- Ring buffer for audio samples, `buffer.rs` lines 6-10 (the `VecDeque` is a
list, front = oldest). -/
structure AudioBuffer where
  buffer : List ℚ
  capacity : ℕ
deriving DecidableEq, Repr

namespace AudioBuffer

/-- Constructor, `buffer.rs` lines 14-19. -/
def new (capacity : ℕ) : AudioBuffer := { buffer := [], capacity := capacity }

/-- Method `push_samples`, `buffer.rs` lines 22-29: for each sample, pop the
front when `len ≥ capacity` (`pop_front` on an empty deque is a no-op, like
`List.tail`), then push the sample at the back. -/
def push_samples (b : AudioBuffer) (samples : List ℚ) : AudioBuffer :=
  samples.foldl
    (fun acc s =>
      { acc with
        buffer :=
          (if acc.capacity ≤ acc.buffer.length then acc.buffer.tail else acc.buffer) ++ [s] })
    b

/-- Method `get_last_n`, `buffer.rs` lines 32-35 (`skip (len - n)`, saturating). -/
def get_last_n (b : AudioBuffer) (n : ℕ) : List ℚ :=
  b.buffer.drop (b.buffer.length - n)

/-- Method `get_all`, `buffer.rs` lines 38-40: the samples oldest-first. -/
def get_all (b : AudioBuffer) : List ℚ := b.buffer

/-- Method `len`, `buffer.rs` lines 43-45. -/
def len (b : AudioBuffer) : ℕ := b.buffer.length

/-- Method `is_full`, `buffer.rs` lines 53-55. -/
def is_full (b : AudioBuffer) : Bool := b.capacity ≤ b.buffer.length

/-- Method `clear`, `buffer.rs` lines 58-60. -/
def clear (b : AudioBuffer) : AudioBuffer := { b with buffer := [] }

end AudioBuffer

/-- Counterexample to C4 as stated ("for every capacity"): with capacity `0`,
pushing one sample leaves `len() = 1 > 0 = capacity`, because the source pops at
most one element before each push and then pushes unconditionally. -/
theorem push_samples_capacity_zero_cex :
    ((AudioBuffer.new 0).push_samples [0]).len = 1 ∧
    ¬ (((AudioBuffer.new 0).push_samples [0]).len
        ≤ ((AudioBuffer.new 0).push_samples [0]).capacity) := by
  constructor <;>
    simp [AudioBuffer.new, AudioBuffer.push_samples, AudioBuffer.len]

/-- Helper: appending the same element preserves the suffix relation. -/
theorem isSuffix_append_single {l1 l2 : List ℚ} (s : ℚ) (h : l1 <:+ l2) :
    l1 ++ [s] <:+ l2 ++ [s] := by
  obtain ⟨t, ht⟩ := h
  exact ⟨t, by rw [← List.append_assoc, ht]⟩

/-- Helper: single-sample invariant for `push_samples` — the capacity is
unchanged, the length stays at most the capacity (when positive), and the
buffer is a suffix of the accumulated history. -/
theorem push_samples_invariant (samples : List ℚ) (b : AudioBuffer) (h : List ℚ)
    (hcap : 1 ≤ b.capacity) (hlen : b.buffer.length ≤ b.capacity)
    (hsfx : b.buffer <:+ h) :
    (b.push_samples samples).capacity = b.capacity ∧
    (b.push_samples samples).buffer.length ≤ b.capacity ∧
    (b.push_samples samples).buffer <:+ (h ++ samples) := by
  induction samples generalizing b h with
  | nil =>
      exact ⟨rfl, hlen, by simpa using hsfx⟩
  | cons s rest ih =>
      by_cases hful : b.capacity ≤ b.buffer.length
      · have hne : b.buffer ≠ [] := by
          intro hnil
          rw [hnil] at hful
          simp at hful
          omega
        have hlen1 : (b.buffer.tail ++ [s]).length ≤ b.capacity := by
          rw [List.length_append, List.length_tail]
          have := List.length_pos.mpr hne
          simp
          omega
        have hsfx1 : b.buffer.tail ++ [s] <:+ h ++ [s] :=
          isSuffix_append_single s ((List.tail_suffix b.buffer).trans hsfx)
        have hstep : b.push_samples (s :: rest)
            = AudioBuffer.push_samples { b with buffer := b.buffer.tail ++ [s] } rest := by
          simp [AudioBuffer.push_samples, hful]
        rw [hstep]
        have := ih { b with buffer := b.buffer.tail ++ [s] } (h ++ [s])
          hcap hlen1 hsfx1
        simpa [List.append_assoc] using this
      · have hlen1 : (b.buffer ++ [s]).length ≤ b.capacity := by
          rw [List.length_append]
          simp
          omega
        have hsfx1 : b.buffer ++ [s] <:+ h ++ [s] :=
          isSuffix_append_single s hsfx
        have hstep : b.push_samples (s :: rest)
            = AudioBuffer.push_samples { b with buffer := b.buffer ++ [s] } rest := by
          simp [AudioBuffer.push_samples, hful]
        rw [hstep]
        have := ih { b with buffer := b.buffer ++ [s] } (h ++ [s])
          hcap hlen1 hsfx1
        simpa [List.append_assoc] using this

/-- Helper: a sequence of `push_samples` calls equals one call on the
concatenated history. -/
theorem push_samples_foldl (pushes : List (List ℚ)) (b : AudioBuffer) :
    pushes.foldl AudioBuffer.push_samples b = b.push_samples pushes.flatten := by
  induction pushes generalizing b with
  | nil => simp [AudioBuffer.push_samples]
  | cons p rest ih =>
      simp only [List.foldl_cons, List.flatten_cons]
      rw [ih]
      simp [AudioBuffer.push_samples, List.foldl_append]

/-- Helper: the buffer is always a suffix of the accumulated history, for every
capacity (no length reasoning needed). -/
theorem push_samples_suffix (samples : List ℚ) (b : AudioBuffer) (h : List ℚ)
    (hsfx : b.buffer <:+ h) :
    (b.push_samples samples).buffer <:+ (h ++ samples) := by
  induction samples generalizing b h with
  | nil => simpa using hsfx
  | cons s rest ih =>
      by_cases hful : b.capacity ≤ b.buffer.length
      · have hsfx1 : b.buffer.tail ++ [s] <:+ h ++ [s] :=
          isSuffix_append_single s ((List.tail_suffix b.buffer).trans hsfx)
        have hstep : b.push_samples (s :: rest)
            = AudioBuffer.push_samples { b with buffer := b.buffer.tail ++ [s] } rest := by
          simp [AudioBuffer.push_samples, hful]
        rw [hstep]
        simpa [List.append_assoc] using
          ih { b with buffer := b.buffer.tail ++ [s] } (h ++ [s]) hsfx1
      · have hsfx1 : b.buffer ++ [s] <:+ h ++ [s] :=
          isSuffix_append_single s hsfx
        have hstep : b.push_samples (s :: rest)
            = AudioBuffer.push_samples { b with buffer := b.buffer ++ [s] } rest := by
          simp [AudioBuffer.push_samples, hful]
        rw [hstep]
        simpa [List.append_assoc] using
          ih { b with buffer := b.buffer ++ [s] } (h ++ [s]) hsfx1

/-- C4 (amended).  For every sequence of `push_samples` calls starting from a
fresh buffer: whenever the capacity is positive, `len()` is at most the
capacity (with capacity `0` the length can reach `1`; see the counterexample);
and for every capacity `get_all()` is a contiguous suffix, in order, of the
concatenated push history. -/
theorem audio_buffer_bounded_and_ordered (cap : ℕ) (pushes : List (List ℚ)) :
    (1 ≤ cap →
      (pushes.foldl AudioBuffer.push_samples (AudioBuffer.new cap)).len ≤ cap) ∧
    (pushes.foldl AudioBuffer.push_samples (AudioBuffer.new cap)).get_all
      <:+ pushes.flatten := by
  rw [push_samples_foldl]
  constructor
  · intro hcap
    have := push_samples_invariant pushes.flatten (AudioBuffer.new cap) []
      (by simpa [AudioBuffer.new] using hcap)
      (by simp [AudioBuffer.new])
      (by simp [AudioBuffer.new])
    simpa [AudioBuffer.len, AudioBuffer.new] using this.2.1
  · have := push_samples_suffix pushes.flatten (AudioBuffer.new cap) []
      (by simp [AudioBuffer.new])
    simpa [AudioBuffer.get_all, AudioBuffer.new] using this

/-- Witness for C4's amended statement at capacity `1` and pushes `[[1], [2]]`. -/
theorem audio_buffer_bounded_and_ordered_witness :
    (([[1], [2]] : List (List ℚ)).foldl AudioBuffer.push_samples
        (AudioBuffer.new 1)).len ≤ 1 ∧
    (([[1], [2]] : List (List ℚ)).foldl AudioBuffer.push_samples
        (AudioBuffer.new 1)).get_all <:+ ([[1], [2]] : List (List ℚ)).flatten :=
  ⟨(audio_buffer_bounded_and_ordered 1 [[1], [2]]).1 (by omega),
   (audio_buffer_bounded_and_ordered 1 [[1], [2]]).2⟩

/-- Ring buffer for mel spectrogram frames, `buffer.rs` lines 64-69. -/
structure MelBuffer where
  frames : List (List ℚ)
  capacity : ℕ
  frame_size : ℕ
deriving DecidableEq, Repr

namespace MelBuffer

/-- Constructor, `buffer.rs` lines 73-79.  Note the source stores `frame_size`
but never checks pushed frames against it. -/
def new (capacity frame_size : ℕ) : MelBuffer :=
  { frames := [], capacity := capacity, frame_size := frame_size }

/-- Method `push_frame`, `buffer.rs` lines 82-87: pop the oldest frame when at
capacity, then push the new frame (unvalidated). -/
def push_frame (b : MelBuffer) (frame : List ℚ) : MelBuffer :=
  { b with
    frames :=
      (if b.capacity ≤ b.frames.length then b.frames.tail else b.frames) ++ [frame] }

/-- Method `get_flattened`, `buffer.rs` lines 90-92: frames concatenated
oldest-first. -/
def get_flattened (b : MelBuffer) : List ℚ := b.frames.flatten

/-- Method `is_ready`, `buffer.rs` lines 95-97. -/
def is_ready (b : MelBuffer) : Bool := b.capacity ≤ b.frames.length

/-- Method `len`, `buffer.rs` lines 100-102. -/
def len (b : MelBuffer) : ℕ := b.frames.length

/-- Method `clear`, `buffer.rs` lines 110-112. -/
def clear (b : MelBuffer) : MelBuffer := { b with frames := [] }

end MelBuffer

/-- Counterexample to C5 as stated.  First input: `push_frame` never validates
the frame width, so one 1-element frame into a `capacity 1, frame_size 32`
buffer makes it ready with a flattened length of `1 ≠ 1 × 32` (and a stored
frame of width `≠ 32`).  Second input: with capacity `0` even a conforming
32-wide frame stays stored, so the flattened length is `32 ≠ 0 × 32`. -/
theorem mel_buffer_flattened_cex :
    (((MelBuffer.new 1 32).push_frame [0]).is_ready = true ∧
     ((MelBuffer.new 1 32).push_frame [0]).get_flattened.length ≠ 1 * 32) ∧
    ((MelBuffer.new 0 32).push_frame (List.replicate 32 0)).get_flattened.length
      ≠ 0 * 32 := by
  refine ⟨⟨?_, ?_⟩, ?_⟩ <;>
    simp [MelBuffer.new, MelBuffer.push_frame, MelBuffer.is_ready,
      MelBuffer.get_flattened]

/-- Helper: invariant of a `push_frame` run — capacity and declared width are
unchanged, the frame count follows the drop-oldest formula, and (when every
pushed frame has the declared width and the stored ones did too) every stored
frame keeps the declared width. -/
theorem mel_push_run (frames : List (List ℚ)) (b : MelBuffer)
    (hcap : 1 ≤ b.capacity) (hlen : b.frames.length ≤ b.capacity)
    (hstored : ∀ f ∈ b.frames, f.length = b.frame_size)
    (hw : ∀ f ∈ frames, f.length = b.frame_size) :
    (frames.foldl MelBuffer.push_frame b).capacity = b.capacity ∧
    (frames.foldl MelBuffer.push_frame b).frame_size = b.frame_size ∧
    (frames.foldl MelBuffer.push_frame b).frames.length
      = min (b.frames.length + frames.length) b.capacity ∧
    ∀ f ∈ (frames.foldl MelBuffer.push_frame b).frames,
      f.length = b.frame_size := by
  induction frames generalizing b with
  | nil =>
      refine ⟨rfl, rfl, ?_, hstored⟩
      simp
      omega
  | cons g rest ih =>
      have hb1 : (b.push_frame g).capacity = b.capacity ∧
          (b.push_frame g).frame_size = b.frame_size ∧
          (b.push_frame g).frames.length = min (b.frames.length + 1) b.capacity ∧
          ∀ f ∈ (b.push_frame g).frames, f.length = b.frame_size := by
        refine ⟨rfl, rfl, ?_, ?_⟩
        · by_cases hful : b.capacity ≤ b.frames.length
          · have hne : b.frames ≠ [] := by
              intro hnil; rw [hnil] at hful; simp at hful; omega
            have := List.length_pos.mpr hne
            simp [MelBuffer.push_frame, hful, List.length_tail]
            omega
          · simp [MelBuffer.push_frame, hful]
            omega
        · intro f hf
          simp only [MelBuffer.push_frame] at hf
          rw [List.mem_append] at hf
          rcases hf with hf | hf
          · split at hf
            · exact hstored f (List.tail_subset _ hf)
            · exact hstored f hf
          · rw [List.mem_singleton] at hf
            subst hf
            exact hw f (by simp)
      obtain ⟨hc1, hf1, hl1, hs1⟩ := hb1
      have := ih (b.push_frame g)
        (by rw [hc1]; exact hcap)
        (by rw [hl1, hc1]; exact min_le_right _ _)
        (by rw [hf1]; exact hs1)
        (fun f hf => by rw [hf1]; exact hw f (List.mem_cons_of_mem _ hf))
      obtain ⟨ihc, ihf, ihl, ihs⟩ := this
      refine ⟨by simp [ihc, hc1], by simp [ihf, hf1], ?_, by simpa [hf1] using ihs⟩
      simp only [List.foldl_cons] at ihl ⊢
      rw [ihl, hl1, hc1, List.length_cons]
      omega

/-- C5 (amended).  For every mel buffer with positive capacity, if every pushed
frame has the constructor-declared width, then after at least `capacity`
`push_frame` calls `is_ready()` is true, `get_flattened()` has length
`capacity × frame_size`, and every stored frame has the declared width.  (The
counterexample shows both the width conclusion for unvalidated frames and the
length formula at capacity `0` fail in the unamended claim.) -/
theorem mel_buffer_ready_flattened (cap w : ℕ) (frames : List (List ℚ))
    (hcap : 1 ≤ cap) (hw : ∀ f ∈ frames, f.length = w)
    (hn : cap ≤ frames.length) :
    (frames.foldl MelBuffer.push_frame (MelBuffer.new cap w)).is_ready = true ∧
    (frames.foldl MelBuffer.push_frame (MelBuffer.new cap w)).get_flattened.length
      = cap * w ∧
    ∀ f ∈ (frames.foldl MelBuffer.push_frame (MelBuffer.new cap w)).frames,
      f.length = w := by
  have := mel_push_run frames (MelBuffer.new cap w)
    (by simpa [MelBuffer.new] using hcap)
    (by simp [MelBuffer.new])
    (by simp [MelBuffer.new])
    (by simpa [MelBuffer.new] using hw)
  obtain ⟨hc, hf, hl, hs⟩ := this
  simp only [MelBuffer.new] at hc hf hl hs ⊢
  have hlen : (frames.foldl MelBuffer.push_frame
      { frames := [], capacity := cap, frame_size := w }).frames.length = cap := by
    rw [hl]
    simp
    omega
  refine ⟨?_, ?_, hs⟩
  · simp [MelBuffer.is_ready, hlen, hc]
  · have hmap : (frames.foldl MelBuffer.push_frame
        { frames := ([] : List (List ℚ)), capacity := cap, frame_size := w }).frames.map
          List.length = List.replicate cap w := by
      apply List.eq_replicate_iff.mpr
      refine ⟨by simp [hlen], ?_⟩
      intro x hx
      obtain ⟨f, hf2, hfx⟩ := List.mem_map.mp hx
      rw [← hfx]
      exact hs f hf2
    simp only [MelBuffer.get_flattened]
    rw [List.length_flatten, hmap, List.sum_replicate, smul_eq_mul]

/-- Witness for C5's amended statement at capacity `1`, width `2`, one
conforming frame. -/
theorem mel_buffer_ready_flattened_witness :
    (([[1, 2]] : List (List ℚ)).foldl MelBuffer.push_frame
        (MelBuffer.new 1 2)).is_ready = true ∧
    (([[1, 2]] : List (List ℚ)).foldl MelBuffer.push_frame
        (MelBuffer.new 1 2)).get_flattened.length = 1 * 2 ∧
    ∀ f ∈ (([[1, 2]] : List (List ℚ)).foldl MelBuffer.push_frame
        (MelBuffer.new 1 2)).frames, f.length = 2 :=
  mel_buffer_ready_flattened 1 2 [[1, 2]] (by omega)
    (by
      intro f hf
      simp only [List.mem_singleton] at hf
      subst hf
      rfl)
    (by simp)

/-- Audio-capture error kinds, `audio_capture.rs` lines 15-27. -/
inductive AudioCaptureError where
  | NoInputDevice
  | DeviceNotFound (name : String)
  | ConfigError (msg : String)
  | StreamError (msg : String)
  | ResamplerError (msg : String)
deriving DecidableEq, Repr

/-- Wake-word error kinds, `wake_word.rs` lines 18-26. -/
inductive WakeWordError where
  | ModelLoadError (msg : String)
  | InferenceError (msg : String)
  | ModelNotFound (path : String)
deriving DecidableEq, Repr

/-- Controller error kinds, `mod.rs` lines 26-36. -/
inductive VoiceError where
  | AudioCapture (e : AudioCaptureError)
  | WakeWord (e : WakeWordError)
  | NotInitialized
  | ModelsNotFound (path : String)
deriving DecidableEq, Repr

/-- Environment of one `VoiceController::start` call: the models-directory
check and the outcomes of the two fallible audio-capture calls
(`AudioCapture::with_device`, `audio_capture.start`). -/
structure StartEnv where
  models_dir : String
  models_dir_exists : Bool
  with_device : Except AudioCaptureError Unit
  capture_start : Except AudioCaptureError Unit
deriving Repr

/-- Observable controller bookkeeping mutated by `start`:
`is_running` (`controller.rs` line 84), whether `audio_tx` holds a sender
(line 83), and whether the processing worker thread has been spawned
(`thread::spawn`, line 88). -/
structure ControllerFlags where
  is_running : Bool
  audio_tx_set : Bool
  processing_thread_spawned : Bool
deriving DecidableEq, Repr

/-- Controller state right after `VoiceController::new`
(`controller.rs` lines 25-32): not running, no sender, no worker thread. -/
def ControllerFlags.init : ControllerFlags :=
  { is_running := false, audio_tx_set := false, processing_thread_spawned := false }

/-- Method `VoiceController::start`, `controller.rs` lines 60-102 (identical
control flow in `mod.rs` lines 114-314, the copy that is actually compiled):
(1) fail early with `ModelsNotFound` when the models directory is missing;
(2) otherwise store the sender, set `is_running := true`, and spawn the
processing thread; (3) only then construct the capture device and start it,
propagating their errors with `?`. -/
def VoiceController.start (env : StartEnv) (c : ControllerFlags) :
    ControllerFlags × Except VoiceError Unit :=
  if env.models_dir_exists = false then
    (c, Except.error (VoiceError.ModelsNotFound env.models_dir))
  else
    let c1 : ControllerFlags :=
      { is_running := true, audio_tx_set := true, processing_thread_spawned := true }
    match env.with_device with
    | Except.error e => (c1, Except.error (VoiceError.AudioCapture e))
    | Except.ok _ =>
        match env.capture_start with
        | Except.error e => (c1, Except.error (VoiceError.AudioCapture e))
        | Except.ok _ => (c1, Except.ok ())

/-- Counterexample to C3 as stated: starting from a fresh controller with the
models directory present but the audio device failing to open
(`NoInputDevice`), `start` does return the error — but the processing thread
has already been spawned and `is_running` has been left `true`, contradicting
"no worker threads have been spawned, and is_running stays false". -/
theorem start_device_failure_leaves_running_cex :
    (VoiceController.start
        { models_dir := "models", models_dir_exists := true,
          with_device := Except.error AudioCaptureError.NoInputDevice,
          capture_start := Except.ok () } ControllerFlags.init).2
      = Except.error (VoiceError.AudioCapture AudioCaptureError.NoInputDevice) ∧
    (VoiceController.start
        { models_dir := "models", models_dir_exists := true,
          with_device := Except.error AudioCaptureError.NoInputDevice,
          capture_start := Except.ok () } ControllerFlags.init).1.is_running = true ∧
    (VoiceController.start
        { models_dir := "models", models_dir_exists := true,
          with_device := Except.error AudioCaptureError.NoInputDevice,
          capture_start := Except.ok () }
      ControllerFlags.init).1.processing_thread_spawned = true := by
  refine ⟨rfl, rfl, rfl⟩

/-- C3 (amended).  A `start` failure at the models-directory check returns the
`ModelsNotFound` error with the controller state untouched (no thread spawned,
`is_running` unchanged — `false` on a fresh controller); a failure at
audio-device construction returns the capture error, but by then the
processing thread has been spawned and `is_running` has been set `true` and is
not rolled back. -/
theorem start_failure_modes (env : StartEnv) (c : ControllerFlags) :
    (env.models_dir_exists = false →
      VoiceController.start env c
        = (c, Except.error (VoiceError.ModelsNotFound env.models_dir))) ∧
    (∀ e : AudioCaptureError, env.models_dir_exists = true →
      env.with_device = Except.error e →
      (VoiceController.start env c).2
          = Except.error (VoiceError.AudioCapture e) ∧
        (VoiceController.start env c).1.is_running = true ∧
        (VoiceController.start env c).1.processing_thread_spawned = true) := by
  constructor
  · intro hmd
    simp [VoiceController.start, hmd]
  · intro e hmd hdev
    simp [VoiceController.start, hmd, hdev]

/-- Witness for C3's amended statement: both failure modes at concrete
environments. -/
theorem start_failure_modes_witness :
    VoiceController.start
        { models_dir := "missing", models_dir_exists := false,
          with_device := Except.ok (), capture_start := Except.ok () }
        ControllerFlags.init
      = (ControllerFlags.init, Except.error (VoiceError.ModelsNotFound "missing")) ∧
    ((VoiceController.start
        { models_dir := "models", models_dir_exists := true,
          with_device := Except.error (AudioCaptureError.DeviceNotFound "usb mic"),
          capture_start := Except.ok () } ControllerFlags.init).2
      = Except.error
          (VoiceError.AudioCapture (AudioCaptureError.DeviceNotFound "usb mic")) ∧
     (VoiceController.start
        { models_dir := "models", models_dir_exists := true,
          with_device := Except.error (AudioCaptureError.DeviceNotFound "usb mic"),
          capture_start := Except.ok () } ControllerFlags.init).1.is_running = true ∧
     (VoiceController.start
        { models_dir := "models", models_dir_exists := true,
          with_device := Except.error (AudioCaptureError.DeviceNotFound "usb mic"),
          capture_start := Except.ok () }
        ControllerFlags.init).1.processing_thread_spawned = true) :=
  ⟨(start_failure_modes
      { models_dir := "missing", models_dir_exists := false,
        with_device := Except.ok (), capture_start := Except.ok () }
      ControllerFlags.init).1 rfl,
   (start_failure_modes
      { models_dir := "models", models_dir_exists := true,
        with_device := Except.error (AudioCaptureError.DeviceNotFound "usb mic"),
        capture_start := Except.ok () }
      ControllerFlags.init).2 (AudioCaptureError.DeviceNotFound "usb mic") rfl rfl⟩

/-- Drain loop of the data callback (`audio_capture.rs` lines 256-277) on the
16 kHz path (no resampler): while the accumulator holds at least 1024 samples,
drain 1024 and forward them unchanged.  Structural fuel bounds the iteration
count; `drainBuffer` supplies fuel `b.length`, which always suffices since each
iteration removes 1024 ≥ 1 samples. -/
def drainGo : ℕ → List ℚ → List (List ℚ) × List ℚ
  | 0, b => ([], b)
  | n + 1, b =>
      if 1024 ≤ b.length then
        let r := drainGo n (b.drop 1024)
        (b.take 1024 :: r.1, r.2)
      else ([], b)

/-- The `while buf.len() >= chunk_size` loop, fully fueled. -/
def drainBuffer (b : List ℚ) : List (List ℚ) × List ℚ := drainGo b.length b

/-- Mono-f32 data callback with `is_capturing` set and no resampler attached
(`audio_capture.rs` lines 235-278 with `channels = 1`, `T = f32`, device rate
16000): the sample conversion is the identity, incoming data is appended to the
accumulator, full 1024-sample chunks are drained, and every nonempty output is
sent to the sink.  Returns (new accumulator, sent vectors). -/
def data_callback (buf : List ℚ) (data : List ℚ) : List ℚ × List (List ℚ) :=
  let d := drainBuffer (buf ++ data)
  (d.2, d.1.filter (fun c => !c.isEmpty))

/-- Feed a sequence of callback invocations, collecting everything sent. -/
def runCallbacks (buf : List ℚ) : List (List ℚ) → List ℚ × List (List ℚ)
  | [] => (buf, [])
  | d :: ds =>
      let p := data_callback buf d
      let q := runCallbacks p.1 ds
      (q.1, p.2 ++ q.2)

/-- Helper: the drained chunks and the remainder reassemble the accumulator. -/
theorem drainGo_concat (n : ℕ) (b : List ℚ) :
    (drainGo n b).1.flatten ++ (drainGo n b).2 = b := by
  induction n generalizing b with
  | zero => simp [drainGo]
  | succ n ih =>
      by_cases hge : 1024 ≤ b.length
      · simp only [drainGo, if_pos hge, List.flatten_cons, List.append_assoc, ih]
        exact List.take_append_drop 1024 b
      · simp [drainGo, if_neg hge]

/-- Helper: every drained chunk has exactly 1024 samples. -/
theorem drainGo_chunk_length (n : ℕ) (b : List ℚ) :
    ∀ c ∈ (drainGo n b).1, c.length = 1024 := by
  induction n generalizing b with
  | zero => simp [drainGo]
  | succ n ih =>
      by_cases hge : 1024 ≤ b.length
      · intro c hc
        simp only [drainGo, if_pos hge, List.mem_cons] at hc
        rcases hc with hc | hc
        · subst hc
          rw [List.length_take]
          omega
        · exact ih (b.drop 1024) c hc
      · simp [drainGo, if_neg hge]

/-- Helper: with fuel at least the accumulator length, the remainder is shorter
than one chunk. -/
theorem drainGo_rem_length (n : ℕ) (b : List ℚ) (h : b.length ≤ n) :
    (drainGo n b).2.length < 1024 := by
  induction n generalizing b with
  | zero =>
      have : b.length = 0 := by omega
      simp [drainGo, this]
  | succ n ih =>
      by_cases hge : 1024 ≤ b.length
      · simp only [drainGo, if_pos hge]
        exact ih (b.drop 1024) (by rw [List.length_drop]; omega)
      · simp only [drainGo, if_neg hge]
        omega

/-- Helper: the drain loop reassembles its accumulator. -/
theorem drainBuffer_concat (b : List ℚ) :
    (drainBuffer b).1.flatten ++ (drainBuffer b).2 = b :=
  drainGo_concat b.length b

/-- Helper: the empty-output filter before `tx.send` drops nothing on the
16 kHz path, because every drained chunk holds 1024 samples. -/
theorem drainBuffer_filter (b : List ℚ) :
    (drainBuffer b).1.filter (fun c => !c.isEmpty) = (drainBuffer b).1 := by
  apply List.filter_eq_self.mpr
  intro c hc
  have := drainGo_chunk_length b.length b c hc
  simp [List.isEmpty_iff, ← List.length_eq_zero]
  omega

/-- Helper: run invariant — what was sent plus the pending accumulator equals
the accumulator seed plus everything received, chunks are 1024-sized, and the
pending accumulator stays below 1024 when it started there. -/
theorem runCallbacks_spec (inputs : List (List ℚ)) (buf : List ℚ) :
    (runCallbacks buf inputs).2.flatten ++ (runCallbacks buf inputs).1
      = buf ++ inputs.flatten ∧
    (∀ c ∈ (runCallbacks buf inputs).2, c.length = 1024) ∧
    (buf.length < 1024 → (runCallbacks buf inputs).1.length < 1024) := by
  induction inputs generalizing buf with
  | nil => simp [runCallbacks]
  | cons d ds ih =>
      obtain ⟨ih1, ih2, ih3⟩ := ih (drainBuffer (buf ++ d)).2
      refine ⟨?_, ?_, ?_⟩
      · simp only [runCallbacks, data_callback, drainBuffer_filter,
          List.flatten_append, List.flatten_cons, List.append_assoc]
        rw [ih1]
        rw [← List.append_assoc]
        rw [drainBuffer_concat]
        simp [List.append_assoc]
      · intro c hc
        simp only [runCallbacks, data_callback, drainBuffer_filter,
          List.mem_append] at hc
        rcases hc with hc | hc
        · exact drainGo_chunk_length _ _ c hc
        · exact ih2 c hc
      · intro _
        simp only [runCallbacks, data_callback]
        exact ih3 (drainGo_rem_length _ _ (le_refl _))

/-- Counterexample to C8 as stated: a single callback delivering one sample
sends nothing (the sample is withheld in the accumulator waiting for a full
1024-chunk), so the concatenation of sink deliveries differs from the input. -/
theorem sixteen_khz_path_remainder_cex :
    (runCallbacks [] [[0]]).2.flatten ≠ ([[0]] : List (List ℚ)).flatten := by
  decide

/-- C8 (amended).  On the 16 kHz mono-float path no sample is altered, dropped
or reordered: what has been sent, followed by the pending accumulator, equals
the input stream; the accumulator holds exactly `total mod 1024` samples; and
whenever the total input length is a multiple of 1024 the deliveries equal the
input exactly (`in == out`). -/
theorem sixteen_khz_path_preserves_samples (inputs : List (List ℚ)) :
    (runCallbacks [] inputs).2.flatten ++ (runCallbacks [] inputs).1
      = inputs.flatten ∧
    (runCallbacks [] inputs).1.length = inputs.flatten.length % 1024 ∧
    (inputs.flatten.length % 1024 = 0 →
      (runCallbacks [] inputs).2.flatten = inputs.flatten) := by
  obtain ⟨h1, h2, h3⟩ := runCallbacks_spec inputs []
  simp only [List.nil_append] at h1
  have hrem : (runCallbacks [] inputs).1.length < 1024 := h3 (by simp)
  have hsent : (runCallbacks [] inputs).2.flatten.length
      = 1024 * (runCallbacks [] inputs).2.length := by
    rw [List.length_flatten]
    have hmap : (runCallbacks [] inputs).2.map List.length
        = List.replicate (runCallbacks [] inputs).2.length 1024 := by
      apply List.eq_replicate_iff.mpr
      refine ⟨by simp, ?_⟩
      intro x hx
      obtain ⟨c, hc, hcx⟩ := List.mem_map.mp hx
      rw [← hcx]
      exact h2 c hc
    rw [hmap, List.sum_replicate, smul_eq_mul]
    ring
  have htot : inputs.flatten.length
      = (runCallbacks [] inputs).2.flatten.length
        + (runCallbacks [] inputs).1.length := by
    rw [← h1, List.length_append]
  have hmod : (runCallbacks [] inputs).1.length = inputs.flatten.length % 1024 := by
    rw [htot, hsent]
    omega
  refine ⟨h1, hmod, ?_⟩
  intro hz
  have : (runCallbacks [] inputs).1.length = 0 := by rw [hmod, hz]
  have hnil : (runCallbacks [] inputs).1 = [] := List.length_eq_zero.mp this
  rw [hnil] at h1
  simpa using h1

/-- Witness for C8's amended statement: one callback of exactly 1024 zero
samples is delivered verbatim. -/
theorem sixteen_khz_path_preserves_samples_witness :
    (runCallbacks [] [List.replicate 1024 (0 : ℚ)]).2.flatten
      = ([List.replicate 1024 (0 : ℚ)] : List (List ℚ)).flatten :=
  (sixteen_khz_path_preserves_samples [List.replicate 1024 (0 : ℚ)]).2.2
    (by
      rw [List.flatten_cons, List.flatten_nil, List.append_nil,
        List.length_replicate])

/-- C9.  `effective_threshold` is the wake-word threshold divided by the
sensitivity (`config.rs` lines 38-40); the sensitivity setter clamps to
`[0.1, 3.0]` (`wake_word.rs` lines 146-150); over that domain the threshold is
strictly decreasing in sensitivity for the default base `0.5`; and at
sensitivities `0.1`, `1.0`, `3.0` the values are exactly `5`, exactly `1/2`,
and exactly `1/6` — which is `0.1667` when rounded to the four decimal places
the spec displays (within half a unit in the last place). -/
theorem effective_threshold_antitone_values (s1 s2 : ℚ)
    (h1 : 1/10 ≤ s1) (h12 : s1 < s2) (h2 : s2 ≤ 3) :
    (∀ c : VoiceConfig,
      c.effective_threshold = c.wake_word_threshold / c.sensitivity) ∧
    (∀ (c : VoiceConfig) (s : ℚ),
      1/10 ≤ (set_sensitivity c s).sensitivity ∧
      (set_sensitivity c s).sensitivity ≤ 3) ∧
    ({ VoiceConfig.default with sensitivity := s2 } : VoiceConfig).effective_threshold
      < ({ VoiceConfig.default with sensitivity := s1 } : VoiceConfig).effective_threshold ∧
    ({ VoiceConfig.default with sensitivity := 1/10 } : VoiceConfig).effective_threshold
      = 5 ∧
    ({ VoiceConfig.default with sensitivity := 1 } : VoiceConfig).effective_threshold
      = 1/2 ∧
    ({ VoiceConfig.default with sensitivity := 3 } : VoiceConfig).effective_threshold
      = 1/6 ∧
    |({ VoiceConfig.default with sensitivity := 3 } : VoiceConfig).effective_threshold
        - 1667/10000| ≤ 1/20000 := by
  refine ⟨fun c => rfl, ?_, ?_, ?_, ?_, ?_, ?_⟩
  · intro c s
    unfold set_sensitivity clampQ
    dsimp only
    split_ifs with ha hb
    · exact ⟨le_refl _, by norm_num⟩
    · exact ⟨by norm_num, le_refl _⟩
    · exact ⟨by linarith, by linarith⟩
  · simp only [VoiceConfig.effective_threshold, VoiceConfig.default]
    exact div_lt_div_of_pos_left (by norm_num) (by linarith) h12
  · norm_num [VoiceConfig.effective_threshold, VoiceConfig.default]
  · norm_num [VoiceConfig.effective_threshold, VoiceConfig.default]
  · norm_num [VoiceConfig.effective_threshold, VoiceConfig.default]
  · have hval : ({ VoiceConfig.default with sensitivity := 3 } : VoiceConfig).effective_threshold
        = 1/6 := by
      norm_num [VoiceConfig.effective_threshold, VoiceConfig.default]
    rw [hval, abs_sub_le_iff]
    constructor <;> norm_num

/-- Witness for C9's strict-decrease part at sensitivities `1 < 3`. -/
theorem effective_threshold_antitone_values_witness :
    ({ VoiceConfig.default with sensitivity := 3 } : VoiceConfig).effective_threshold
      < ({ VoiceConfig.default with sensitivity := 1 } : VoiceConfig).effective_threshold :=
  (effective_threshold_antitone_values 1 3 (by norm_num) (by norm_num)
    (by norm_num)).2.2.1

/-- The Tauri-managed controller slot is `Arc<Mutex<Option<VoiceController>>>`
(`commands/voice.rs` line 13), `None` until `start_voice_listening` stores a
controller.  For the state query only the controller's FSM matters
(`VoiceController::current_state` returns `state_machine.state()`,
`controller.rs` lines 142-144).  Command `get_voice_state`,
`commands/voice.rs` lines 140-149: with a controller present return its
current state, otherwise `Idle`.  The return type is a plain state, not a
`Result` — the command has no error path. -/
def get_voice_state (guard : Option VoiceStateMachine) : VoiceState :=
  match guard with
  | some m => m.state
  | none => VoiceState.Idle

/-- C10.  Querying the voice state when no controller has been started returns
`Idle` rather than an error (total function — the query cannot fail at the
command surface), and with a controller present it returns that controller's
current state. -/
theorem get_voice_state_default_idle :
    get_voice_state none = VoiceState.Idle ∧
    ∀ m : VoiceStateMachine, get_voice_state (some m) = m.state :=
  ⟨rfl, fun _ => rfl⟩
